import Mathlib

/-!
Verification of the hourglass ECS core (crates/ecs): the `World` façade and the
`ResourceMap` are embedded from `world.rs` and `resource.rs`; the handle allocator
and the generational slot vector live in the repository's `vec` module, which is
absent from the snapshot, so they are modelled from the specification (§3, §4.1,
§4.2), as indicated on each of their definitions.
-/

/-- An entity handle: an index plus a generation (spec §3; world.rs `Entity = Handle`). -/
structure Handle where
  index : Nat
  generation : Nat
  deriving DecidableEq, Repr

instance : Inhabited Handle := ⟨⟨0, 0⟩⟩

/-- Modelled from the spec: per-index allocator state `{generation, is_allocated}`
(spec §3 "Slot Allocator"); the source file of the `vec` module is missing. -/
structure SlotState where
  generation : Nat
  allocated : Bool
  deriving DecidableEq, Repr

/-- Modelled from the spec: the handle allocator (spec §3, §4.1) — a growable sequence of
per-index state plus a free list of previously-deallocated indices; `vec::HandleAllocator`
is missing from the snapshot. -/
structure HandleAllocator where
  slots : List SlotState
  free_list : List Nat
  deriving DecidableEq, Repr

def HandleAllocator.new : HandleAllocator := ⟨[], []⟩

/-- Modelled from the spec (§4.1): `is_allocated(handle)` is true iff the index exists,
is marked allocated, and its stored generation equals the handle's generation. -/
def HandleAllocator.is_allocated (a : HandleAllocator) (h : Handle) : Bool :=
  match a.slots[h.index]? with
  | some s => s.allocated && s.generation == h.generation
  | none => false

/-- Modelled from the spec: `handle_exists`, the check `World::assign_component` performs;
spec §4.4 says component assignment fails exactly when the entity is not currently
allocated, so it is the `is_allocated` check. -/
def HandleAllocator.handle_exists (a : HandleAllocator) (h : Handle) : Bool :=
  a.is_allocated h

/-- Modelled from the spec (§4.1): `allocate` pops an index from the free list (reusing the
slot, incrementing its generation) or appends a new index at generation 0 if the free list
is empty; the index is marked allocated. -/
def HandleAllocator.allocate (a : HandleAllocator) : HandleAllocator × Handle :=
  match a.free_list with
  | i :: rest =>
    let g := (match a.slots[i]? with | some s => s.generation | none => 0) + 1
    (⟨a.slots.set i ⟨g, true⟩, rest⟩, ⟨i, g⟩)
  | [] =>
    (⟨a.slots ++ [⟨0, true⟩], []⟩, ⟨a.slots.length, 0⟩)

/-- Modelled from the spec (§4.1): `deallocate` marks the index free and pushes it onto the
free list when the handle is currently allocated; a stale or already-freed handle is a
no-op. -/
def HandleAllocator.deallocate (a : HandleAllocator) (h : Handle) : HandleAllocator :=
  match a.slots[h.index]? with
  | some s =>
    if s.allocated && s.generation == h.generation then
      ⟨a.slots.set h.index ⟨s.generation, false⟩, h.index :: a.free_list⟩
    else a
  | none => a

/-- A value paired with the generation it was stored at (`vec::Slot`, whose shape
`Slot::new(value, generation)` is visible in world.rs's `component_vec!` macro). -/
structure Slot (V : Type) where
  value : V
  generation : Nat
  deriving DecidableEq, Repr

/-- Modelled from the spec (§3, §4.2): the generational slot vector — a growable sequence
of optional `{value, generation}` slots addressed by index; `vec::GenerationalVec` is
missing from the snapshot. -/
structure GenerationalVec (V : Type) where
  data : List (Option (Slot V))
  deriving DecidableEq, Repr

/-- Grow a slot list with empty slots so that it has at least `n` entries. -/
def growTo (l : List (Option α)) (n : Nat) : List (Option α) :=
  l ++ List.replicate (n - l.length) none

/-- Modelled from the spec (§4.2): `insert(handle, value)` grows the vector to accommodate
the index and stores the value keyed by the handle's generation (infallible after growth;
the World pre-validates handles through the allocator). -/
def GenerationalVec.insert (v : GenerationalVec V) (h : Handle) (value : V) :
    GenerationalVec V :=
  ⟨(growTo v.data (h.index + 1)).set h.index (some ⟨value, h.generation⟩)⟩

/-- Modelled from the spec (§4.2): `get(handle)` returns the value only if a slot exists at
that index and its stored generation matches; an out-of-range index is absence. -/
def GenerationalVec.get (v : GenerationalVec V) (h : Handle) : Option V :=
  match v.data[h.index]? with
  | some (some s) => if s.generation == h.generation then some s.value else none
  | _ => none

/-- Modelled from the spec (§4.2): `remove(handle)` clears the value at that index if the
generation matches; no-op otherwise. -/
def GenerationalVec.remove (v : GenerationalVec V) (h : Handle) : GenerationalVec V :=
  match v.data[h.index]? with
  | some (some s) => if s.generation == h.generation then ⟨v.data.set h.index none⟩ else v
  | _ => v

/-- Modelled from the spec (§4.2): iteration yields, per index, `Some value` for an
occupied slot and `None` for an empty one — occupancy only; the iterator has no handle, so
no generation check is possible here. -/
def GenerationalVec.iter (v : GenerationalVec V) : List (Option V) :=
  v.data.map (fun s => s.map (fun x => x.value))

/-- A type-erased boxed value (`Box<dyn Any>`): the payload with its runtime type id, so
that downcasts can be checked. -/
structure AnyBox where
  tid : Nat
  val : Nat
  deriving DecidableEq, Repr

/-- Models `Any::downcast_ref::<T>`: succeeds iff the boxed runtime type is `T`. -/
def downcast_ref (T : Nat) (c : AnyBox) : Option Nat :=
  if c.tid == T then some c.val else none

/-- Models `Any::downcast_mut::<T>`: succeeds iff the boxed runtime type is `T`. -/
def downcast_mut (T : Nat) (c : AnyBox) : Option Nat :=
  if c.tid == T then some c.val else none

/-- world.rs `ComponentVec = GenerationalVec<Component>` with `Component = Box<dyn Any>`. -/
abbrev ComponentVec := GenerationalVec AnyBox

/-- world.rs `ComponentVec::default()`: an empty column. -/
def ComponentVec.empty : ComponentVec := ⟨[]⟩

/-- resource.rs `ResourceMap`: a map from type id to one boxed value of that type,
modelled as a function (the `HashMap<TypeId, Box<dyn Any>>`). -/
structure ResourceMap where
  data : Nat → Option AnyBox

def ResourceMap.new : ResourceMap := ⟨fun _ => none⟩

/-- resource.rs `get`: type-indexed lookup followed by `downcast_ref`. -/
def ResourceMap.get (m : ResourceMap) (T : Nat) : Option Nat :=
  (m.data T).bind (downcast_ref T)

/-- resource.rs `get_mut`: type-indexed lookup followed by `downcast_mut`. -/
def ResourceMap.get_mut (m : ResourceMap) (T : Nat) : Option Nat :=
  (m.data T).bind (downcast_mut T)

/-- resource.rs `insert`: stores `Box::new(value)` under `TypeId::of::<T>`, overriding any
previous value. -/
def ResourceMap.insert (m : ResourceMap) (T : Nat) (value : Nat) : ResourceMap :=
  ⟨fun t => if t = T then some ⟨T, value⟩ else m.data t⟩

/-- resource.rs `remove`: deletes the entry for `T` if present, no-op otherwise. -/
def ResourceMap.remove (m : ResourceMap) (T : Nat) : ResourceMap :=
  ⟨fun t => if t = T then none else m.data t⟩

abbrev Entity := Handle

/-- world.rs `World`: the resource registry, the type-indexed component map
(`HashMap<TypeId, ComponentVecHandle>`, modelled as a function), and the allocator. -/
structure World where
  resources : ResourceMap
  components : Nat → Option ComponentVec
  allocator : HandleAllocator

def World.new : World := ⟨ResourceMap.new, fun _ => none, HandleAllocator.new⟩

/-- The error carried by failed component assignments (`vec::error::HandleNotFoundError`). -/
structure HandleNotFoundError where
  handle : Handle
  deriving DecidableEq, Repr

/-- world.rs `create_entities(count)`: allocate `count` fresh handles in order. -/
def World.create_entities : World → Nat → World × List Entity
  | w, 0 => (w, [])
  | w, count + 1 =>
    let (a, e) := w.allocator.allocate
    let (w2, es) := World.create_entities { w with allocator := a } count
    (w2, e :: es)

/-- world.rs `create_entity`: `create_entities(1)[0]`. -/
def World.create_entity (w : World) : World × Entity :=
  let (w2, es) := w.create_entities 1
  (w2, es.headD default)

/-- world.rs `remove_entities`: deallocate each handle in order. -/
def World.remove_entities (w : World) (entities : List Entity) : World :=
  entities.foldl (fun acc e => { acc with allocator := acc.allocator.deallocate e }) w

/-- world.rs `remove_entity`: `remove_entities(&[entity])`. -/
def World.remove_entity (w : World) (entity : Entity) : World :=
  w.remove_entities [entity]

/-- world.rs `assign_component`: fail with `HandleNotFoundError` unless the allocator knows
the handle; otherwise lazily create `T`'s column (`entry().or_insert_with(default)`) and
insert or remove the value. -/
def World.assign_component (w : World) (T : Nat) (entity : Entity) (value : Option AnyBox) :
    World × Except HandleNotFoundError Unit :=
  if w.allocator.handle_exists entity then
    let components := (w.components T).getD ComponentVec.empty
    let components2 :=
      match value with
      | some component => components.insert entity component
      | none => components.remove entity
    ({ w with components := fun t => if t = T then some components2 else w.components t },
      Except.ok ())
  else
    (w, Except.error ⟨entity⟩)

/-- world.rs `add_component`: box the value (recording its runtime type `T`) and assign. -/
def World.add_component (w : World) (T : Nat) (entity : Entity) (component : Nat) :
    World × Except HandleNotFoundError Unit :=
  w.assign_component T entity (some ⟨T, component⟩)

/-- world.rs `remove_component`: assign `None`. -/
def World.remove_component (w : World) (T : Nat) (entity : Entity) :
    World × Except HandleNotFoundError Unit :=
  w.assign_component T entity none

/-- world.rs `entity_exists`: delegates to `allocator.is_allocated`. -/
def World.entity_exists (w : World) (entity : Entity) : Bool :=
  w.allocator.is_allocated entity

/-- world.rs free function `entity_has_component`: the generation-checked lookup in the
column is occupied. -/
def entity_has_component (entity : Entity) (components : ComponentVec) : Bool :=
  (components.get entity).isSome

/-- world.rs `get_component`, with its possible panic made explicit: after the existence
and occupancy checks the code downcasts and calls `.unwrap()`; `Except.error ()` models
that unwrap panicking on a failed downcast. -/
def World.get_component_checked (w : World) (T : Nat) (entity : Entity) :
    Except Unit (Option Nat) :=
  if w.entity_exists entity then
    match w.components T with
    | some component_vec =>
      if entity_has_component entity component_vec then
        match (component_vec.get entity).bind (downcast_ref T) with
        | some v => Except.ok (some v)
        | none => Except.error ()
      else Except.ok none
    | none => Except.ok none
  else Except.ok none

/-- world.rs `get_component` as an option; the panic path yields no value. -/
def World.get_component (w : World) (T : Nat) (entity : Entity) : Option Nat :=
  match w.get_component_checked T entity with
  | Except.ok v => v
  | Except.error _ => none

/-- world.rs `get_component_mut`, with its unwrap-after-downcast panic made explicit,
mirroring `get_component_checked` on the mutable path. -/
def World.get_component_mut_checked (w : World) (T : Nat) (entity : Entity) :
    Except Unit (Option Nat) :=
  if w.entity_exists entity then
    match w.components T with
    | some component_vec =>
      if entity_has_component entity component_vec then
        match (component_vec.get entity).bind (downcast_mut T) with
        | some v => Except.ok (some v)
        | none => Except.error ()
      else Except.ok none
    | none => Except.ok none
  else Except.ok none

/-- world.rs `get_component_mut` as an option; the panic path yields no value. -/
def World.get_component_mut (w : World) (T : Nat) (entity : Entity) : Option Nat :=
  match w.get_component_mut_checked T entity with
  | Except.ok v => v
  | Except.error _ => none

/-- world.rs `has_component`: `get_component::<T>(entity).is_some()`. -/
def World.has_component (w : World) (T : Nat) (entity : Entity) : Bool :=
  (w.get_component T entity).isSome

/-- world.rs `get_component_vec`: the raw column for `T`, if it was ever created. -/
def World.get_component_vec (w : World) (T : Nat) : Option ComponentVec :=
  w.components T

/-- world.rs `get_component_vec_mut`: the raw column for `T`, if it was ever created. -/
def World.get_component_vec_mut (w : World) (T : Nat) : Option ComponentVec :=
  w.components T

/-- world.rs `register_component`: materialize an empty column for `T` if absent
(`entry().or_insert(component_vec!())`). -/
def World.register_component (w : World) (T : Nat) : World :=
  match w.components T with
  | some _ => w
  | none => { w with components := fun t => if t = T then some ComponentVec.empty
                                            else w.components t }

/-- world.rs `system!` two-component arm: izip the two columns' iterators
(`get_component_vec_mut` panics on a missing column — modelled by `none`), enumerate,
keep the rows where both slots are occupied, then downcast each value with `.unwrap()`
(a failed downcast panics — also `none`). Yields `(entity index, A value, B value)`. -/
def World.query2 (w : World) (A B : Nat) : Option (List (Nat × Nat × Nat)) :=
  match w.get_component_vec_mut A, w.get_component_vec_mut B with
  | some ca, some cb =>
    ((ca.iter.zip cb.iter).enum.filterMap (fun p =>
      match p.2 with
      | (some a, some b) => some (p.1, a, b)
      | _ => none)).mapM (fun r =>
        (downcast_mut A r.2.1).bind (fun x =>
          (downcast_mut B r.2.2).map (fun y => (r.1, x, y))))
  | _, _ => none

/-- One entity-lifecycle or component operation on a `World`, for stating properties over
arbitrary operation sequences. -/
inductive Op where
  | create
  | createMany (count : Nat)
  | removeOne (entity : Entity)
  | removeMany (entities : List Entity)
  | addComp (T : Nat) (entity : Entity) (value : Nat)
  | removeComp (T : Nat) (entity : Entity)
  | registerComp (T : Nat)

/-- Apply one operation, returning the new world and the entities the operation created. -/
def World.applyOp (w : World) : Op → World × List Entity
  | Op.create => let (w2, e) := w.create_entity; (w2, [e])
  | Op.createMany n => w.create_entities n
  | Op.removeOne e => (w.remove_entity e, [])
  | Op.removeMany es => (w.remove_entities es, [])
  | Op.addComp T e v => ((w.add_component T e v).1, [])
  | Op.removeComp T e => ((w.remove_component T e).1, [])
  | Op.registerComp T => (w.register_component T, [])

/-- Run a sequence of operations, collecting every entity returned by a create. -/
def World.runTrace : World → List Op → World × List Entity
  | w, [] => (w, [])
  | w, op :: rest =>
    let (w2, es) := w.applyOp op
    let (w3, es2) := World.runTrace w2 rest
    (w3, es ++ es2)

/-- Run a sequence of operations, keeping only the final world. -/
def World.runOps (w : World) (ops : List Op) : World :=
  (w.runTrace ops).1

/-- Occupancy of a column position, ignoring generations: the condition the query
iteration actually tests. -/
def GenerationalVec.occupied (v : GenerationalVec V) (i : Nat) : Bool :=
  match v.data[i]? with
  | some (some _) => true
  | _ => false

/-- The concrete world of the spec's query scenario: three entities; component type 0
("Position", values 10 and 12) on e0 and e2 only; component type 1 ("Name", values 21
and 22) on e1 and e2 only. -/
def scenarioWorld : World :=
  let w0 := (World.new.create_entities 3).1
  let w1 := (w0.add_component 0 ⟨0, 0⟩ 10).1
  let w2 := (w1.add_component 0 ⟨2, 0⟩ 12).1
  let w3 := (w2.add_component 1 ⟨1, 0⟩ 21).1
  (w3.add_component 1 ⟨2, 0⟩ 22).1

theorem growTo_length (l : List (Option α)) (n : Nat) :
    (growTo l n).length = max l.length n := by
  simp [growTo]
  omega

theorem growTo_getElem?_of_lt (l : List (Option α)) (n i : Nat) (h : i < l.length) :
    (growTo l n)[i]? = l[i]? := by
  simp [growTo, List.getElem?_append, h]

theorem growTo_getElem?_none (l : List (Option α)) (n i : Nat) (h1 : l.length ≤ i)
    (h2 : i < n) : (growTo l n)[i]? = some none := by
  have hlt : i - l.length < n - l.length := by omega
  simp [growTo, List.getElem?_append, Nat.lt_irrefl, Nat.not_lt.mpr h1,
    List.getElem?_replicate, hlt]

theorem GenerationalVec.get_insert_self (v : GenerationalVec V) (h : Handle) (x : V) :
    (v.insert h x).get h = some x := by
  have hlen : h.index < ((growTo v.data (h.index + 1))).length := by
    rw [growTo_length]; omega
  simp [GenerationalVec.insert, GenerationalVec.get, List.getElem?_set_self hlen]

theorem GenerationalVec.get_remove_self (v : GenerationalVec V) (h : Handle) :
    (v.remove h).get h = none := by
  unfold GenerationalVec.remove
  match hv : v.data[h.index]? with
  | none => simp [GenerationalVec.get, hv]
  | some none => simp [GenerationalVec.get, hv]
  | some (some s) =>
    by_cases hg : s.generation == h.generation
    · have hlen : h.index < v.data.length := (List.getElem?_eq_some.mp hv).1
      simp [hv, hg, GenerationalVec.get, List.getElem?_set_self hlen]
    · simp [hv, hg, GenerationalVec.get]

theorem GenerationalVec.remove_remove (v : GenerationalVec V) (h : Handle) :
    (v.remove h).remove h = v.remove h := by
  unfold GenerationalVec.remove
  match hv : v.data[h.index]? with
  | none => simp [hv]
  | some none => simp [hv]
  | some (some s) =>
    by_cases hg : s.generation == h.generation
    · have hlen : h.index < v.data.length := (List.getElem?_eq_some.mp hv).1
      simp [hv, hg, List.getElem?_set_self hlen]
    · simp [hv, hg]

theorem HandleAllocator.is_allocated_deallocate_self (a : HandleAllocator) (h : Handle) :
    (a.deallocate h).is_allocated h = false := by
  unfold HandleAllocator.deallocate
  match hv : a.slots[h.index]? with
  | none => simp [HandleAllocator.is_allocated, hv]
  | some s =>
    by_cases hc : s.allocated && s.generation == h.generation
    · have hlen : h.index < a.slots.length := (List.getElem?_eq_some.mp hv).1
      simp [hv, hc, HandleAllocator.is_allocated, List.getElem?_set_self hlen]
    · simp [hv, hc, HandleAllocator.is_allocated]

theorem HandleAllocator.is_allocated_deallocate_of_dead (a : HandleAllocator)
    (h e : Handle) (hd : a.is_allocated e = false) :
    (a.deallocate h).is_allocated e = false := by
  unfold HandleAllocator.deallocate
  match hv : a.slots[h.index]? with
  | none => exact hd
  | some s =>
    by_cases hc : s.allocated && s.generation == h.generation
    · simp only [hv, hc, if_true]
      by_cases hie : e.index = h.index
      · have hlen : h.index < a.slots.length := (List.getElem?_eq_some.mp hv).1
        simp [HandleAllocator.is_allocated, hie, List.getElem?_set_self hlen]
      · simpa [HandleAllocator.is_allocated, List.getElem?_set_ne (fun hx => hie hx.symm)]
          using hd
    · simp [hv, hc, hd]

theorem World.remove_entities_allocator (w : World) (es : List Entity) :
    (w.remove_entities es).allocator = es.foldl HandleAllocator.deallocate w.allocator := by
  unfold World.remove_entities
  induction es generalizing w with
  | nil => rfl
  | cons e rest ih => simp [List.foldl_cons, ih]

theorem World.remove_entities_components (w : World) (es : List Entity) :
    (w.remove_entities es).components = w.components := by
  unfold World.remove_entities
  induction es generalizing w with
  | nil => rfl
  | cons e rest ih => simp [List.foldl_cons, ih]

theorem World.remove_entities_resources (w : World) (es : List Entity) :
    (w.remove_entities es).resources = w.resources := by
  unfold World.remove_entities
  induction es generalizing w with
  | nil => rfl
  | cons e rest ih => simp [List.foldl_cons, ih]

theorem foldl_deallocate_dead (es : List Entity) (a : HandleAllocator) (e : Entity)
    (h : e ∈ es ∨ a.is_allocated e = false) :
    (es.foldl HandleAllocator.deallocate a).is_allocated e = false := by
  induction es generalizing a with
  | nil =>
    rcases h with h | h
    · cases h
    · exact h
  | cons x rest ih =>
    rw [List.foldl_cons]
    rcases h with h | h
    · rcases List.mem_cons.mp h with h | h
      · exact ih _ (Or.inr (h ▸ HandleAllocator.is_allocated_deallocate_self a e))
      · exact ih _ (Or.inl h)
    · exact ih _ (Or.inr (HandleAllocator.is_allocated_deallocate_of_dead a x e h))

theorem World.get_component_of_dead (w : World) (T : Nat) (e : Entity)
    (h : w.entity_exists e = false) : w.get_component T e = none := by
  simp [World.get_component, World.get_component_checked, h]

theorem World.get_component_mut_of_dead (w : World) (T : Nat) (e : Entity)
    (h : w.entity_exists e = false) : w.get_component_mut T e = none := by
  simp [World.get_component_mut, World.get_component_mut_checked, h]

theorem World.create_entity_def (w : World) :
    w.create_entity = ({ w with allocator := (w.allocator.allocate).1 },
      (w.allocator.allocate).2) := by
  rcases hp : w.allocator.allocate with ⟨a, e⟩
  simp [World.create_entity, World.create_entities, hp]

/-- Column well-typedness: every value stored in the column for type id `T` carries
runtime type `T`. `add_component::<T>` only ever boxes values of type `T`, so this is an
invariant of every reachable World. -/
def World.WellTyped (w : World) : Prop :=
  ∀ (T : Nat) (col : ComponentVec), w.components T = some col →
    ∀ os ∈ col.data, ∀ s : Slot AnyBox, os = some s → s.value.tid = T

theorem growTo_mem (l : List (Option α)) (n : Nat) (os : Option α)
    (h : os ∈ growTo l n) : os ∈ l ∨ os = none := by
  rcases List.mem_append.mp h with h | h
  · exact Or.inl h
  · exact Or.inr (List.eq_of_mem_replicate h)

theorem welltyped_new : World.new.WellTyped := by
  intro T col hcol
  cases hcol

theorem welltyped_of_components_eq {w w2 : World}
    (hc : w2.components = w.components) (hw : w.WellTyped) : w2.WellTyped := by
  intro T col hcol
  exact hw T col (hc ▸ hcol)

theorem welltyped_add_component (w : World) (T : Nat) (e : Entity) (v : Nat)
    (hw : w.WellTyped) : (w.add_component T e v).1.WellTyped := by
  unfold World.add_component World.assign_component
  by_cases hex : w.allocator.handle_exists e
  · simp only [hex, if_true]
    intro t col hcol os hos s hs
    by_cases ht : t = T
    · subst ht
      simp only [eq_self_iff_true, if_true, Option.some.injEq] at hcol
      subst hcol
      rcases List.mem_or_eq_of_mem_set hos with hos | hos
      · rcases growTo_mem _ _ _ hos with hos | hos
        · rcases hc0 : w.components t with _ | col0
          · rw [hc0] at hos
            cases hos
          · rw [hc0] at hos
            exact hw t col0 hc0 os hos s hs
        · rw [hos] at hs
          cases hs
      · rw [hos] at hs
        injection hs with hs
        rw [← hs]
    · simp only [if_neg ht] at hcol
      exact hw t col hcol os hos s hs
  · simp only [hex, if_false]
    exact hw

theorem welltyped_remove_component (w : World) (T : Nat) (e : Entity)
    (hw : w.WellTyped) : (w.remove_component T e).1.WellTyped := by
  unfold World.remove_component World.assign_component
  by_cases hex : w.allocator.handle_exists e
  · simp only [hex, if_true]
    intro t col hcol os hos s hs
    by_cases ht : t = T
    · subst ht
      simp only [eq_self_iff_true, if_true, Option.some.injEq] at hcol
      subst hcol
      have hmem0 : ∀ os2 ∈ ((w.components t).getD ComponentVec.empty).data,
          ∀ s2 : Slot AnyBox, os2 = some s2 → s2.value.tid = t := by
        intro os2 hos2 s2 hs2
        rcases hc0 : w.components t with _ | col0
        · rw [hc0] at hos2
          cases hos2
        · rw [hc0] at hos2
          exact hw t col0 hc0 os2 hos2 s2 hs2
      unfold GenerationalVec.remove at hos
      rcases hd : ((w.components t).getD ComponentVec.empty).data[e.index]? with _ | os3
      · rw [hd] at hos
        exact hmem0 os hos s hs
      · rcases os3 with _ | s3
        · rw [hd] at hos
          exact hmem0 os hos s hs
        · rw [hd] at hos
          by_cases hg : s3.generation == e.generation
          · simp only [hg, if_true] at hos
            rcases List.mem_or_eq_of_mem_set hos with hos | hos
            · exact hmem0 os hos s hs
            · rw [hos] at hs
              cases hs
          · simp only [hg, if_false] at hos
            exact hmem0 os hos s hs
    · simp only [if_neg ht] at hcol
      exact hw t col hcol os hos s hs
  · simp only [hex, if_false]
    exact hw

theorem welltyped_register_component (w : World) (T : Nat) (hw : w.WellTyped) :
    (w.register_component T).WellTyped := by
  unfold World.register_component
  rcases hc : w.components T with _ | col0
  · intro t col hcol os hos s hs
    by_cases ht : t = T
    · subst ht
      simp only [eq_self_iff_true, if_true, Option.some.injEq] at hcol
      rw [← hcol] at hos
      cases hos
    · simp only [if_neg ht] at hcol
      exact hw t col hcol os hos s hs
  · exact hw

theorem welltyped_applyOp (w : World) (op : Op) (hw : w.WellTyped) :
    (w.applyOp op).1.WellTyped := by
  cases op with
  | create =>
    rcases hp : w.allocator.allocate with ⟨a, e⟩
    have hco : (w.applyOp Op.create).1 = { w with allocator := a } := by
      simp [World.applyOp, World.create_entity_def, hp]
    rw [hco]
    exact welltyped_of_components_eq rfl hw
  | createMany n =>
    have : ∀ (n : Nat) (w : World), (w.create_entities n).1.components = w.components := by
      intro n
      induction n with
      | zero => intro w; rfl
      | succ k ih =>
        intro w
        rcases hp : w.allocator.allocate with ⟨a, e⟩
        have hstep : (w.create_entities (k + 1)).1
            = (({ w with allocator := a }).create_entities k).1 := by
          simp [World.create_entities, hp]
        rw [hstep, ih]
    exact welltyped_of_components_eq (this n w) hw
  | removeOne e =>
    exact welltyped_of_components_eq (World.remove_entities_components w [e]) hw
  | removeMany es =>
    exact welltyped_of_components_eq (World.remove_entities_components w es) hw
  | addComp T e v => exact welltyped_add_component w T e v hw
  | removeComp T e => exact welltyped_remove_component w T e hw
  | registerComp T => exact welltyped_register_component w T hw

theorem welltyped_runTrace (ops : List Op) (w : World) (hw : w.WellTyped) :
    (w.runTrace ops).1.WellTyped := by
  induction ops generalizing w with
  | nil => exact hw
  | cons op rest ih =>
    rcases hstep : w.applyOp op with ⟨w2, es⟩
    have hrun : (w.runTrace (op :: rest)).1 = (w2.runTrace rest).1 := by
      simp [World.runTrace, hstep]
    rw [hrun]
    have h2 := welltyped_applyOp w op hw
    rw [hstep] at h2
    exact ih w2 h2

theorem get_welltyped (w : World) (T : Nat) (col : ComponentVec) (e : Entity)
    (val : AnyBox) (hw : w.WellTyped) (hc : w.components T = some col)
    (hval : col.get e = some val) : val.tid = T := by
  unfold GenerationalVec.get at hval
  rcases hd : col.data[e.index]? with _ | os
  · rw [hd] at hval
    cases hval
  · rcases os with _ | s
    · rw [hd] at hval
      cases hval
    · rw [hd] at hval
      by_cases hg : s.generation == e.generation
      · simp only [hg, if_true, Option.some.injEq] at hval
        rw [← hval]
        exact hw T col hc (some s) (List.getElem?_mem hd) s rfl
      · simp only [hg, if_false] at hval
        cases hval

theorem checked_ne_error_of_welltyped (w : World) (T : Nat) (e : Entity)
    (hw : w.WellTyped) :
    w.get_component_checked T e ≠ Except.error () ∧
    w.get_component_mut_checked T e ≠ Except.error () := by
  constructor
  · unfold World.get_component_checked
    by_cases h1 : w.entity_exists e
    · simp only [h1, if_true]
      rcases hc : w.components T with _ | col
      · simp
      · by_cases h2 : entity_has_component e col
        · simp only [h2, if_true]
          obtain ⟨val, hval⟩ := Option.isSome_iff_exists.mp h2
          have htid := get_welltyped w T col e val hw hc hval
          rw [hval]
          simp [downcast_ref, htid]
        · simp [h2]
    · simp [h1]
  · unfold World.get_component_mut_checked
    by_cases h1 : w.entity_exists e
    · simp only [h1, if_true]
      rcases hc : w.components T with _ | col
      · simp
      · by_cases h2 : entity_has_component e col
        · simp only [h2, if_true]
          obtain ⟨val, hval⟩ := Option.isSome_iff_exists.mp h2
          have htid := get_welltyped w T col e val hw hc hval
          rw [hval]
          simp [downcast_mut, htid]
        · simp [h2]
    · simp [h1]

/-- C10: on every reachable World, `get_component` and `get_component_mut` never hit
their internal unwrap-after-downcast panic: whenever the generation-checked lookup in
`T`'s column yields a stored value, that value downcasts to `T`, because columns are
keyed by type id and `add_component::<T>` only stores boxes of type `T`. -/
theorem get_component_never_panics (ops : List Op) (T : Nat) (e : Entity) :
    (World.new.runOps ops).get_component_checked T e ≠ Except.error () ∧
    (World.new.runOps ops).get_component_mut_checked T e ≠ Except.error () :=
  checked_ne_error_of_welltyped _ T e (welltyped_runTrace ops World.new welltyped_new)

theorem get_component_never_panics_witness :
    (World.new.runOps [Op.create, Op.addComp 0 ⟨0, 0⟩ 3]).get_component_checked 0 ⟨0, 0⟩
      ≠ Except.error () ∧
    (World.new.runOps [Op.create, Op.addComp 0 ⟨0, 0⟩ 3]).get_component_mut_checked 0
      ⟨0, 0⟩ ≠ Except.error () :=
  get_component_never_panics [Op.create, Op.addComp 0 ⟨0, 0⟩ 3] 0 ⟨0, 0⟩

/-- Reference recursion for the query's enumerate-and-filter stage: position-indexed
rows where both zipped slots are occupied. -/
def pairRows : Nat → List (Option AnyBox × Option AnyBox) → List (Nat × AnyBox × AnyBox)
  | _, [] => []
  | n, (some a, some b) :: rest => (n, a, b) :: pairRows (n + 1) rest
  | n, (none, _) :: rest => pairRows (n + 1) rest
  | n, (some _, none) :: rest => pairRows (n + 1) rest

theorem filterMap_enumFrom_eq_pairRows (l : List (Option AnyBox × Option AnyBox))
    (n : Nat) :
    (List.enumFrom n l).filterMap (fun p =>
      match p.2 with
      | (some a, some b) => some (p.1, a, b)
      | _ => none) = pairRows n l := by
  induction l generalizing n with
  | nil => rfl
  | cons x rest ih =>
    rcases x with ⟨oa, ob⟩
    cases oa <;> cases ob <;>
      simp [List.enumFrom, List.filterMap_cons, pairRows, ih]

theorem mem_pairRows_fst (l : List (Option AnyBox × Option AnyBox)) (n i : Nat) :
    i ∈ (pairRows n l).map (fun r => r.1) ↔
      (n ≤ i ∧ (match l[i - n]? with
        | some (some _, some _) => True
        | _ => False)) := by
  induction l generalizing n with
  | nil => simp [pairRows]
  | cons x rest ih =>
    rcases x with ⟨oa, ob⟩
    have hsucc : n + 1 ≤ i → (((oa, ob) :: rest)[i - n]? = rest[i - (n + 1)]?) := by
      intro hle
      have hk : i - n = (i - (n + 1)) + 1 := by omega
      rw [hk, List.getElem?_cons_succ]
    match oa, ob with
    | some a, some b =>
      rw [show pairRows n ((some a, some b) :: rest) = (n, a, b) :: pairRows (n + 1) rest
        from rfl]
      simp only [List.map_cons, List.mem_cons]
      rw [ih (n + 1)]
      constructor
      · rintro (rfl | ⟨h1, h2⟩)
        · refine ⟨Nat.le_refl i, ?_⟩
          rw [Nat.sub_self, List.getElem?_cons_zero]
          trivial
        · refine ⟨by omega, ?_⟩
          rw [hsucc h1]
          exact h2
      · rintro ⟨h1, h2⟩
        by_cases hin : i = n
        · exact Or.inl hin
        · right
          have h1s : n + 1 ≤ i := by omega
          rw [hsucc h1s] at h2
          exact ⟨h1s, h2⟩
    | none, ob =>
      rw [show pairRows n ((none, ob) :: rest) = pairRows (n + 1) rest from rfl]
      rw [ih (n + 1)]
      constructor
      · rintro ⟨h1, h2⟩
        rw [← hsucc h1] at h2
        exact ⟨by omega, h2⟩
      · rintro ⟨h1, h2⟩
        by_cases hin : i = n
        · rw [show i - n = 0 from by omega, List.getElem?_cons_zero] at h2
          cases h2
        · have h1s : n + 1 ≤ i := by omega
          rw [hsucc h1s] at h2
          exact ⟨h1s, h2⟩
    | some a, none =>
      rw [show pairRows n ((some a, none) :: rest) = pairRows (n + 1) rest from rfl]
      rw [ih (n + 1)]
      constructor
      · rintro ⟨h1, h2⟩
        rw [← hsucc h1] at h2
        exact ⟨by omega, h2⟩
      · rintro ⟨h1, h2⟩
        by_cases hin : i = n
        · rw [show i - n = 0 from by omega, List.getElem?_cons_zero] at h2
          cases h2
        · have h1s : n + 1 ≤ i := by omega
          rw [hsucc h1s] at h2
          exact ⟨h1s, h2⟩

theorem pairRows_fst_ge (l : List (Option AnyBox × Option AnyBox)) (n : Nat) :
    ∀ i ∈ (pairRows n l).map (fun r => r.1), n ≤ i := by
  intro i hi
  exact ((mem_pairRows_fst l n i).mp hi).1

theorem pairRows_fst_sorted (l : List (Option AnyBox × Option AnyBox)) (n : Nat) :
    List.Pairwise (· < ·) ((pairRows n l).map (fun r => r.1)) := by
  induction l generalizing n with
  | nil => simp [pairRows]
  | cons x rest ih =>
    rcases x with ⟨oa, ob⟩
    match oa, ob with
    | some a, some b =>
      rw [show pairRows n ((some a, some b) :: rest) = (n, a, b) :: pairRows (n + 1) rest
        from rfl]
      rw [List.map_cons, List.pairwise_cons]
      refine ⟨fun j hj => ?_, ih (n + 1)⟩
      have := pairRows_fst_ge rest (n + 1) j hj
      omega
    | none, ob =>
      rw [show pairRows n ((none, ob) :: rest) = pairRows (n + 1) rest from rfl]
      exact ih (n + 1)
    | some a, none =>
      rw [show pairRows n ((some a, none) :: rest) = pairRows (n + 1) rest from rfl]
      exact ih (n + 1)

theorem mapM_cons_inv {α β : Type} (f : α → Option β) (x : α) (l : List α)
    (res : List β) (h : (x :: l).mapM f = some res) :
    ∃ y ys, f x = some y ∧ l.mapM f = some ys ∧ res = y :: ys := by
  rw [List.mapM_cons] at h
  cases hfx : f x with
  | none => rw [hfx] at h; simp at h
  | some y =>
    rw [hfx] at h
    cases hl : l.mapM f with
    | none => rw [hl] at h; simp at h
    | some ys =>
      rw [hl] at h
      simp at h
      exact ⟨y, ys, rfl, rfl, h.symm⟩

theorem mapM_downcast_fst (A B : Nat) (rows : List (Nat × AnyBox × AnyBox))
    (res : List (Nat × Nat × Nat))
    (h : rows.mapM (fun r => (downcast_mut A r.2.1).bind (fun x =>
        (downcast_mut B r.2.2).map (fun y => (r.1, x, y)))) = some res) :
    res.map (fun r => r.1) = rows.map (fun r => r.1) := by
  induction rows generalizing res with
  | nil =>
    simp only [List.mapM_nil] at h
    injection h with h
    rw [← h]
    rfl
  | cons r rest ih =>
    obtain ⟨y, ys, hy, hys, rfl⟩ := mapM_cons_inv _ r rest res h
    obtain ⟨x, hx, hmap⟩ := Option.bind_eq_some.mp hy
    obtain ⟨y2, hy2, hyy⟩ := Option.map_eq_some'.mp hmap
    rw [List.map_cons, List.map_cons, ← hyy, ih ys hys]

theorem occupied_iff (v : ComponentVec) (i : Nat) :
    v.occupied i = true ↔ ∃ s, v.data[i]? = some (some s) := by
  unfold GenerationalVec.occupied
  rcases h : v.data[i]? with _ | os
  · simp
  · rcases os with _ | s
    · simp
    · simp

theorem iter_getElem? (v : ComponentVec) (i : Nat) :
    v.iter[i]? = (v.data[i]?).map (fun s => s.map (fun x => x.value)) := by
  unfold GenerationalVec.iter
  exact List.getElem?_map _ _ _

theorem zip_occupied (ca cb : ComponentVec) (i : Nat) :
    (match (ca.iter.zip cb.iter)[i]? with
      | some (some _, some _) => True
      | _ => False) ↔ (ca.occupied i = true ∧ cb.occupied i = true) := by
  rcases hz : (ca.iter.zip cb.iter)[i]? with _ | ⟨oa, ob⟩
  · simp only
    constructor
    · intro h
      cases h
    · rintro ⟨h1, h2⟩
      obtain ⟨sa, hsa⟩ := (occupied_iff ca i).mp h1
      obtain ⟨sb, hsb⟩ := (occupied_iff cb i).mp h2
      have hza : ca.iter[i]? = some (some sa.value) := by
        rw [iter_getElem?, hsa]
        rfl
      have hzb : cb.iter[i]? = some (some sb.value) := by
        rw [iter_getElem?, hsb]
        rfl
      have : (ca.iter.zip cb.iter)[i]? = some (some sa.value, some sb.value) :=
        List.getElem?_zip_eq_some.mpr ⟨hza, hzb⟩
      rw [hz] at this
      cases this
  · obtain ⟨ha, hb⟩ := List.getElem?_zip_eq_some.mp hz
    rw [iter_getElem?] at ha hb
    obtain ⟨osa, hosa, hoa⟩ := Option.map_eq_some'.mp ha
    obtain ⟨osb, hosb, hob⟩ := Option.map_eq_some'.mp hb
    have hca : ca.occupied i = osa.isSome := by
      unfold GenerationalVec.occupied
      rw [hosa]
      rcases osa with _ | s <;> rfl
    have hcb : cb.occupied i = osb.isSome := by
      unfold GenerationalVec.occupied
      rw [hosb]
      rcases osb with _ | s <;> rfl
    rcases osa with _ | sa <;> rcases osb with _ | sb <;> subst hoa <;> subst hob <;>
      simp_all

/-- C3 (amended): a two-component query yields exactly the positions at which both
columns hold an occupied slot — regardless of allocator liveness or slot generation —
in ascending index order; in the spec's scenario the `{Position, Name}` query yields
only e2, and after `remove_entity(e2)` re-running the query still yields e2 (not the
empty set), because entity removal does not scrub columns and the positional query
iteration never consults the allocator. -/
theorem query_yields_occupied_rows :
    (∀ (w : World) (A B : Nat) (ca cb : ComponentVec) (l : List (Nat × Nat × Nat)),
      w.components A = some ca → w.components B = some cb → w.query2 A B = some l →
      ((∀ i : Nat, (i ∈ l.map (fun r => r.1)) ↔
          (ca.occupied i = true ∧ cb.occupied i = true)) ∧
        List.Pairwise (· < ·) (l.map (fun r => r.1)))) ∧
    scenarioWorld.query2 0 1 = some [(2, 12, 22)] ∧
    (scenarioWorld.remove_entity ⟨2, 0⟩).query2 0 1 = some [(2, 12, 22)] := by
  refine ⟨?_, by decide, by decide⟩
  intro w A B ca cb l hca hcb hq
  have hrows : (ca.iter.zip cb.iter).enum.filterMap (fun p =>
      match p.2 with
      | (some a, some b) => some (p.1, a, b)
      | _ => none) = pairRows 0 (ca.iter.zip cb.iter) :=
    filterMap_enumFrom_eq_pairRows _ 0
  have hq2 : (pairRows 0 (ca.iter.zip cb.iter)).mapM (fun r =>
      (downcast_mut A r.2.1).bind (fun x =>
        (downcast_mut B r.2.2).map (fun y => (r.1, x, y)))) = some l := by
    rw [← hrows, ← hq]
    unfold World.query2 World.get_component_vec_mut
    rw [hca, hcb]
  have hfst := mapM_downcast_fst A B _ l hq2
  constructor
  · intro i
    rw [hfst, mem_pairRows_fst]
    simp only [Nat.zero_le, true_and, Nat.sub_zero]
    exact zip_occupied ca cb i
  · rw [hfst]
    exact pairRows_fst_sorted _ 0

theorem query_yields_occupied_rows_witness :
    ((2 : Nat) ∈ ([((2 : Nat), (12 : Nat), (22 : Nat))].map (fun r => r.1)) ↔
      ((⟨[some ⟨⟨0, 10⟩, 0⟩, none, some ⟨⟨0, 12⟩, 0⟩]⟩ : ComponentVec).occupied 2 = true ∧
       (⟨[none, some ⟨⟨1, 21⟩, 0⟩, some ⟨⟨1, 22⟩, 0⟩]⟩ : ComponentVec).occupied 2
         = true)) ∧
    List.Pairwise (· < ·) ([((2 : Nat), (12 : Nat), (22 : Nat))].map (fun r => r.1)) := by
  have h := query_yields_occupied_rows.1 scenarioWorld 0 1
    ⟨[some ⟨⟨0, 10⟩, 0⟩, none, some ⟨⟨0, 12⟩, 0⟩]⟩
    ⟨[none, some ⟨⟨1, 21⟩, 0⟩, some ⟨⟨1, 22⟩, 0⟩]⟩
    [(2, 12, 22)] (by decide) (by decide) (by decide)
  exact ⟨h.1 2, h.2⟩

/-- C3 counterexample: in the spec's own scenario, after `remove_entity(e2)` the
`{Position, Name}` query still yields e2 with its component values — it does not yield
the empty set, contrary to the claim. -/
theorem query_after_removal_not_empty :
    (scenarioWorld.remove_entity ⟨2, 0⟩).query2 0 1 = some [(2, 12, 22)] ∧
    ¬ (scenarioWorld.remove_entity ⟨2, 0⟩).query2 0 1 = some [] := by
  decide

/-- C8: for every resource type `T` and values `v1`, `v2`: after `insert::<T>(v1)`,
`get::<T>()` returns `Some(v1)`; after a subsequent `insert::<T>(v2)` it returns
`Some(v2)` (the first value is replaced); after `remove::<T>()`, or if `T` was never
inserted, `get::<T>()` and `get_mut::<T>()` return `None`. -/
theorem resource_map_insert_get_remove (m : ResourceMap) (T v1 v2 : Nat) :
    (m.insert T v1).get T = some v1 ∧
    ((m.insert T v1).insert T v2).get T = some v2 ∧
    ((m.insert T v1).remove T).get T = none ∧
    ((m.insert T v1).remove T).get_mut T = none ∧
    (m.remove T).get T = none ∧ (m.remove T).get_mut T = none ∧
    ResourceMap.new.get T = none ∧ ResourceMap.new.get_mut T = none := by
  refine ⟨?_, ?_, ?_, ?_, ?_, ?_, ?_, ?_⟩ <;>
    simp [ResourceMap.insert, ResourceMap.get, ResourceMap.get_mut, ResourceMap.remove,
      ResourceMap.new, downcast_ref, downcast_mut]

/-- C6: `add_component` and `remove_component` return `Err(HandleNotFoundError)` carrying
the offending handle exactly when the entity is not currently allocated, and `Ok(())`
exactly when it is. -/
theorem component_assignment_error_iff (w : World) (T : Nat) (e : Entity) (v : Nat) :
    ((w.add_component T e v).2 = Except.error ⟨e⟩ ↔ w.allocator.is_allocated e = false) ∧
    ((w.add_component T e v).2 = Except.ok () ↔ w.allocator.is_allocated e = true) ∧
    ((w.remove_component T e).2 = Except.error ⟨e⟩ ↔ w.allocator.is_allocated e = false) ∧
    ((w.remove_component T e).2 = Except.ok () ↔ w.allocator.is_allocated e = true) := by
  unfold World.add_component World.remove_component World.assign_component
    HandleAllocator.handle_exists
  by_cases h : w.allocator.is_allocated e <;> simp [h]

theorem component_assignment_error_iff_witness :
    ((World.new.add_component 0 ⟨0, 0⟩ 5).2 = Except.error ⟨⟨0, 0⟩⟩ ↔
      World.new.allocator.is_allocated ⟨0, 0⟩ = false) ∧
    ((World.new.add_component 0 ⟨0, 0⟩ 5).2 = Except.ok () ↔
      World.new.allocator.is_allocated ⟨0, 0⟩ = true) ∧
    ((World.new.remove_component 0 ⟨0, 0⟩).2 = Except.error ⟨⟨0, 0⟩⟩ ↔
      World.new.allocator.is_allocated ⟨0, 0⟩ = false) ∧
    ((World.new.remove_component 0 ⟨0, 0⟩).2 = Except.ok () ↔
      World.new.allocator.is_allocated ⟨0, 0⟩ = true) :=
  component_assignment_error_iff World.new 0 ⟨0, 0⟩ 5

/-- C5: `remove_entity(e)` and `remove_entities(es)` change only the allocator's state:
every component column and the resources are untouched, and yet afterwards
`get_component::<T>(e)` returns `None` for every type `T` (in particular for every `T`
that had been set on `e`), without any per-column cleanup. -/
theorem remove_entity_lazy_invalidation (w : World) (e : Entity) (es : List Entity)
    (T : Nat) :
    (w.remove_entity e).components = w.components ∧
    (w.remove_entity e).resources = w.resources ∧
    (w.remove_entity e).get_component T e = none ∧
    (w.remove_entity e).has_component T e = false ∧
    (w.remove_entities es).components = w.components ∧
    (w.remove_entities es).resources = w.resources ∧
    (e ∈ es → (w.remove_entities es).get_component T e = none) := by
  have hdead : (w.remove_entity e).entity_exists e = false := by
    unfold World.remove_entity World.entity_exists
    rw [World.remove_entities_allocator]
    exact foldl_deallocate_dead [e] w.allocator e (Or.inl (List.mem_singleton.mpr rfl))
  refine ⟨World.remove_entities_components w [e], World.remove_entities_resources w [e],
    World.get_component_of_dead _ T e hdead, ?_,
    World.remove_entities_components w es, World.remove_entities_resources w es, ?_⟩
  · simp [World.has_component, World.get_component_of_dead _ T e hdead]
  · intro hmem
    have hdead2 : (w.remove_entities es).entity_exists e = false := by
      unfold World.entity_exists
      rw [World.remove_entities_allocator]
      exact foldl_deallocate_dead es w.allocator e (Or.inl hmem)
    exact World.get_component_of_dead _ T e hdead2

theorem remove_entity_lazy_invalidation_witness :
    ((World.new.create_entity).1.remove_entities [⟨0, 0⟩]).get_component 0 ⟨0, 0⟩ =
      none :=
  (remove_entity_lazy_invalidation (World.new.create_entity).1 ⟨0, 0⟩ [⟨0, 0⟩] 0).2.2.2.2.2.2
    (List.mem_singleton.mpr rfl)

/-- C4: on a currently-allocated entity, `add_component` succeeds and an immediate
`get_component` of the same type returns the inserted value; `remove_component` succeeds
and an immediate `get_component` returns `None`. -/
theorem add_then_get_remove_then_get (w : World) (T : Nat) (e : Entity) (v : Nat)
    (h : w.allocator.is_allocated e = true) :
    (w.add_component T e v).2 = Except.ok () ∧
    (w.add_component T e v).1.get_component T e = some v ∧
    (w.remove_component T e).2 = Except.ok () ∧
    (w.remove_component T e).1.get_component T e = none := by
  unfold World.add_component World.remove_component World.assign_component
    HandleAllocator.handle_exists
  simp only [h, if_true]
  refine ⟨trivial, ?_, trivial, ?_⟩
  · simp [World.get_component, World.get_component_checked, World.entity_exists, h,
      entity_has_component, GenerationalVec.get_insert_self, downcast_ref]
  · simp [World.get_component, World.get_component_checked, World.entity_exists, h,
      entity_has_component, GenerationalVec.get_remove_self]

theorem add_then_get_remove_then_get_witness :
    ((World.new.create_entity).1.add_component 0 ⟨0, 0⟩ 7).1.get_component 0 ⟨0, 0⟩ =
      some 7 ∧
    ((World.new.create_entity).1.remove_component 0 ⟨0, 0⟩).1.get_component 0 ⟨0, 0⟩ =
      none :=
  ⟨(add_then_get_remove_then_get (World.new.create_entity).1 0 ⟨0, 0⟩ 7 (by decide)).2.1,
   (add_then_get_remove_then_get (World.new.create_entity).1 0 ⟨0, 0⟩ 7 (by decide)).2.2.2⟩

theorem World.remove_entity_def (w : World) (e : Entity) :
    w.remove_entity e = { w with allocator := w.allocator.deallocate e } := rfl

theorem HandleAllocator.deallocate_of_dead (a : HandleAllocator) (h : Handle)
    (hd : a.is_allocated h = false) : a.deallocate h = a := by
  unfold HandleAllocator.deallocate
  unfold HandleAllocator.is_allocated at hd
  match hv : a.slots[h.index]? with
  | none => rfl
  | some s => simp [hv] at hd ⊢; intro h1 h2; rw [h1, h2] at hd; simp at hd

/-- C7: a second `remove_entity` with the same handle, and a second `remove_component`
for the same entity and type, are no-ops: the World state after two calls equals the
state after one. -/
theorem removal_idempotent (w : World) (e : Entity) (T : Nat) :
    (w.remove_entity e).remove_entity e = w.remove_entity e ∧
    ((w.remove_component T e).1.remove_component T e).1 = (w.remove_component T e).1 := by
  constructor
  · simp only [World.remove_entity_def]
    exact congrArg (fun a => { w with allocator := a })
      (HandleAllocator.deallocate_of_dead _ e
        (HandleAllocator.is_allocated_deallocate_self w.allocator e))
  · unfold World.remove_component World.assign_component HandleAllocator.handle_exists
    by_cases hex : w.allocator.is_allocated e
    · simp only [hex, if_true]
      apply World.mk.injEq _ _ _ _ _ _ |>.mpr
      refine ⟨rfl, ?_, rfl⟩
      funext t
      by_cases ht : t = T
      · simp [ht, GenerationalVec.remove_remove]
      · simp [ht]
    · simp [hex]

/-- C9 (implicit in `assign_component`): `remove_component::<T>` on a live entity whose
column does not yet exist returns `Ok(())` and, as a side effect of the
`entry().or_insert_with(default)`, creates an empty column for `T`. -/
theorem remove_component_creates_column (w : World) (T : Nat) (e : Entity)
    (h : w.allocator.is_allocated e = true) (hc : w.components T = none) :
    (w.remove_component T e).2 = Except.ok () ∧
    w.get_component_vec T = none ∧
    (w.remove_component T e).1.get_component_vec T = some ComponentVec.empty := by
  unfold World.remove_component World.assign_component HandleAllocator.handle_exists
    World.get_component_vec
  simp [h, hc, ComponentVec.empty, GenerationalVec.remove]

/-- Stored generation at an index, 0 when the index does not exist yet. -/
def HandleAllocator.genAt (a : HandleAllocator) (i : Nat) : Nat :=
  match a.slots[i]? with
  | some s => s.generation
  | none => 0

/-- Allocator well-formedness: every free-list index is in bounds. It holds for every
reachable allocator state. -/
def HandleAllocator.WF (a : HandleAllocator) : Prop :=
  ∀ i ∈ a.free_list, i < a.slots.length

/-- A previously-issued handle is bounded by the allocator's current state: its index
exists and its generation does not exceed the stored one. -/
def HandleAllocator.HandleBound (a : HandleAllocator) (h : Handle) : Prop :=
  h.index < a.slots.length ∧ h.generation ≤ a.genAt h.index

theorem HandleAllocator.deallocate_length (a : HandleAllocator) (h : Handle) :
    (a.deallocate h).slots.length = a.slots.length := by
  unfold HandleAllocator.deallocate
  match hv : a.slots[h.index]? with
  | none => rfl
  | some s =>
    by_cases hc : s.allocated && s.generation == h.generation
    · simp [hv, hc]
    · simp [hv, hc]

theorem HandleAllocator.deallocate_genAt (a : HandleAllocator) (h : Handle) (j : Nat) :
    (a.deallocate h).genAt j = a.genAt j := by
  unfold HandleAllocator.deallocate
  match hv : a.slots[h.index]? with
  | none => rfl
  | some s =>
    by_cases hc : s.allocated && s.generation == h.generation
    · simp only [hv, hc, if_true]
      by_cases hj : j = h.index
      · have hlen : h.index < a.slots.length := (List.getElem?_eq_some.mp hv).1
        simp [hj, HandleAllocator.genAt, List.getElem?_set_self hlen, hv]
      · simp [HandleAllocator.genAt, List.getElem?_set_ne (fun hx => hj hx.symm)]
    · simp [hv, hc]

theorem HandleAllocator.deallocate_WF (a : HandleAllocator) (h : Handle) (hwf : a.WF) :
    (a.deallocate h).WF := by
  unfold HandleAllocator.deallocate
  match hv : a.slots[h.index]? with
  | none => exact hwf
  | some s =>
    by_cases hc : s.allocated && s.generation == h.generation
    · simp only [hv, hc, if_true]
      intro i hi
      simp only [List.length_set]
      rcases List.mem_cons.mp hi with hi | hi
      · exact hi ▸ (List.getElem?_eq_some.mp hv).1
      · exact hwf i hi
    · simpa [hv, hc] using hwf

theorem HandleAllocator.allocate_length_mono (a : HandleAllocator) :
    a.slots.length ≤ (a.allocate).1.slots.length := by
  unfold HandleAllocator.allocate
  match a.free_list with
  | i :: rest => simp
  | [] => simp

theorem HandleAllocator.allocate_WF (a : HandleAllocator) (hwf : a.WF) :
    (a.allocate).1.WF := by
  unfold HandleAllocator.allocate
  match hf : a.free_list with
  | i :: rest =>
    intro j hj
    simp only [List.length_set]
    exact hwf j (hf ▸ List.mem_cons_of_mem i hj)
  | [] => intro j hj; cases hj

theorem HandleAllocator.allocate_genAt_mono (a : HandleAllocator) (hwf : a.WF) (j : Nat) :
    a.genAt j ≤ (a.allocate).1.genAt j := by
  unfold HandleAllocator.allocate
  match hf : a.free_list with
  | i :: rest =>
    have hi : i < a.slots.length := hwf i (hf ▸ List.mem_cons_self i rest)
    by_cases hj : j = i
    · subst hj
      simp only [HandleAllocator.genAt, List.getElem?_set_self hi,
        List.getElem?_eq_getElem hi]
      omega
    · simp [HandleAllocator.genAt, List.getElem?_set_ne (fun hx => hj hx.symm)]
  | [] =>
    by_cases hj : j < a.slots.length
    · simp [HandleAllocator.genAt, List.getElem?_append, hj]
    · simp only [HandleAllocator.genAt]
      have : a.slots[j]? = none := List.getElem?_eq_none (Nat.le_of_not_lt hj)
      simp [this]

theorem HandleAllocator.allocate_fresh (a : HandleAllocator) (hwf : a.WF) :
    (a.allocate).2.index < (a.allocate).1.slots.length ∧
    (a.allocate).1.genAt (a.allocate).2.index = (a.allocate).2.generation ∧
    (a.genAt (a.allocate).2.index < (a.allocate).2.generation ∨
      a.slots.length ≤ (a.allocate).2.index) := by
  unfold HandleAllocator.allocate
  match hf : a.free_list with
  | i :: rest =>
    have hi : i < a.slots.length := hwf i (hf ▸ List.mem_cons_self i rest)
    refine ⟨by simpa using hi, ?_, Or.inl ?_⟩
    · simp [HandleAllocator.genAt, List.getElem?_set_self hi]
    · simp [HandleAllocator.genAt, List.getElem?_eq_getElem hi]
  | [] =>
    refine ⟨by simp, ?_, Or.inr (Nat.le_refl _)⟩
    simp [HandleAllocator.genAt, List.getElem?_concat_length]

theorem HandleAllocator.allocate_not_live (a : HandleAllocator) :
    a.is_allocated (a.allocate).2 = false := by
  unfold HandleAllocator.allocate
  match hf : a.free_list with
  | i :: rest =>
    match hv : a.slots[i]? with
    | some s => simp [HandleAllocator.is_allocated, hv]
    | none => simp [HandleAllocator.is_allocated, hv]
  | [] =>
    have : a.slots[a.slots.length]? = none := List.getElem?_eq_none (Nat.le_refl _)
    simp [HandleAllocator.is_allocated, this]

theorem HandleAllocator.live_same_index_eq (a : HandleAllocator) (h1 h2 : Handle)
    (ha1 : a.is_allocated h1 = true) (ha2 : a.is_allocated h2 = true)
    (hidx : h1.index = h2.index) : h1 = h2 := by
  unfold HandleAllocator.is_allocated at ha1 ha2
  match hv : a.slots[h1.index]? with
  | none => rw [hv] at ha1; cases ha1
  | some s =>
    rw [hv] at ha1
    rw [← hidx, hv] at ha2
    have hg1 : s.generation = h1.generation := by
      have h' := (Bool.and_eq_true _ _).mp ha1
      exact eq_of_beq h'.2
    have hg2 : s.generation = h2.generation := by
      have h' := (Bool.and_eq_true _ _).mp ha2
      exact eq_of_beq h'.2
    cases h1
    cases h2
    simp_all

theorem foldl_deallocate_length (es : List Entity) (a : HandleAllocator) :
    (es.foldl HandleAllocator.deallocate a).slots.length = a.slots.length := by
  induction es generalizing a with
  | nil => rfl
  | cons e rest ih => rw [List.foldl_cons, ih, HandleAllocator.deallocate_length]

theorem foldl_deallocate_genAt (es : List Entity) (a : HandleAllocator) (j : Nat) :
    (es.foldl HandleAllocator.deallocate a).genAt j = a.genAt j := by
  induction es generalizing a with
  | nil => rfl
  | cons e rest ih => rw [List.foldl_cons, ih, HandleAllocator.deallocate_genAt]

theorem foldl_deallocate_WF (es : List Entity) (a : HandleAllocator) (hwf : a.WF) :
    (es.foldl HandleAllocator.deallocate a).WF := by
  induction es generalizing a with
  | nil => exact hwf
  | cons e rest ih => exact ih _ (HandleAllocator.deallocate_WF a e hwf)

theorem World.assign_component_allocator (w : World) (T : Nat) (e : Entity)
    (value : Option AnyBox) : (w.assign_component T e value).1.allocator = w.allocator := by
  unfold World.assign_component
  by_cases hc : w.allocator.handle_exists e <;> simp [hc]

theorem World.register_component_allocator (w : World) (T : Nat) :
    (w.register_component T).allocator = w.allocator := by
  unfold World.register_component
  match w.components T with
  | some _ => rfl
  | none => rfl

theorem HandleAllocator.bound_mono {a b : HandleAllocator} {h : Handle}
    (hlen : a.slots.length ≤ b.slots.length) (hgen : ∀ j, a.genAt j ≤ b.genAt j)
    (hb : a.HandleBound h) : b.HandleBound h :=
  ⟨Nat.lt_of_lt_of_le hb.1 hlen, Nat.le_trans hb.2 (hgen h.index)⟩

theorem create_entities_inv (n : Nat) (w : World) (acc : List Entity)
    (hwf : w.allocator.WF) (hb : ∀ h ∈ acc, w.allocator.HandleBound h)
    (hnd : acc.Nodup) :
    (w.create_entities n).1.allocator.WF ∧
    (∀ h ∈ acc ++ (w.create_entities n).2,
      (w.create_entities n).1.allocator.HandleBound h) ∧
    (acc ++ (w.create_entities n).2).Nodup := by
  induction n generalizing w acc with
  | zero => simpa [World.create_entities] using ⟨hwf, fun h hm => hb h hm, hnd⟩
  | succ n ih =>
    rcases hp : w.allocator.allocate with ⟨a, e⟩
    have hstep : w.create_entities (n + 1)
        = ((({ w with allocator := a }).create_entities n).1,
           e :: (({ w with allocator := a }).create_entities n).2) := by
      simp [World.create_entities, hp]
    have hfresh := HandleAllocator.allocate_fresh w.allocator hwf
    rw [hp] at hfresh
    dsimp only at hfresh
    have hmono : ∀ j, w.allocator.genAt j ≤ a.genAt j := by
      intro j
      have := HandleAllocator.allocate_genAt_mono w.allocator hwf j
      rwa [hp] at this
    have hlen : w.allocator.slots.length ≤ a.slots.length := by
      have := HandleAllocator.allocate_length_mono w.allocator
      rwa [hp] at this
    have hwf2 : a.WF := by
      have := HandleAllocator.allocate_WF w.allocator hwf
      rwa [hp] at this
    have hnotin : e ∉ acc := by
      intro hmem
      rcases hb e hmem with ⟨hb1, hb2⟩
      rcases hfresh.2.2 with hlt | hge
      · omega
      · omega
    have hb2 : ∀ h ∈ acc ++ [e], ({ w with allocator := a } : World).allocator.HandleBound h := by
      intro h hm
      rcases List.mem_append.mp hm with hm | hm
      · exact HandleAllocator.bound_mono hlen hmono (hb h hm)
      · rcases List.mem_singleton.mp hm with rfl
        exact ⟨hfresh.1, Nat.le_of_eq hfresh.2.1.symm⟩
    have hnd2 : (acc ++ [e]).Nodup := by
      rw [List.nodup_append_comm]
      exact List.nodup_cons.mpr ⟨hnotin, hnd⟩
    have := ih { w with allocator := a } (acc ++ [e]) hwf2 hb2 hnd2
    rw [hstep]
    simpa [List.append_assoc] using this

theorem applyOp_inv (op : Op) (w : World) (acc : List Entity)
    (hwf : w.allocator.WF) (hb : ∀ h ∈ acc, w.allocator.HandleBound h)
    (hnd : acc.Nodup) :
    (w.applyOp op).1.allocator.WF ∧
    (∀ h ∈ acc ++ (w.applyOp op).2, (w.applyOp op).1.allocator.HandleBound h) ∧
    (acc ++ (w.applyOp op).2).Nodup := by
  cases op with
  | create =>
    have hco : w.applyOp Op.create = w.create_entities 1 := by
      rcases hp : w.allocator.allocate with ⟨a, e⟩
      simp [World.applyOp, World.create_entity, World.create_entities, hp]
    rw [hco]
    exact create_entities_inv 1 w acc hwf hb hnd
  | createMany n => exact create_entities_inv n w acc hwf hb hnd
  | removeOne e =>
    simp only [World.applyOp, World.remove_entity_def, List.append_nil]
    refine ⟨HandleAllocator.deallocate_WF _ _ hwf, ?_, hnd⟩
    intro h hm
    exact HandleAllocator.bound_mono
      (Nat.le_of_eq (HandleAllocator.deallocate_length w.allocator e).symm)
      (fun j => Nat.le_of_eq (HandleAllocator.deallocate_genAt w.allocator e j).symm)
      (hb h hm)
  | removeMany es =>
    simp only [World.applyOp, List.append_nil]
    have hra := World.remove_entities_allocator w es
    refine ⟨?_, ?_, hnd⟩
    · rw [hra]
      exact foldl_deallocate_WF es w.allocator hwf
    · intro h hm
      rw [hra]
      exact HandleAllocator.bound_mono
        (Nat.le_of_eq (foldl_deallocate_length es w.allocator).symm)
        (fun j => Nat.le_of_eq (foldl_deallocate_genAt es w.allocator j).symm) (hb h hm)
  | addComp T e v =>
    simp only [World.applyOp, World.add_component, List.append_nil]
    have ha := World.assign_component_allocator w T e (some ⟨T, v⟩)
    refine ⟨?_, ?_, hnd⟩
    · rw [ha]; exact hwf
    · intro h hm
      rw [ha]
      exact hb h hm
  | removeComp T e =>
    simp only [World.applyOp, World.remove_component, List.append_nil]
    have ha := World.assign_component_allocator w T e none
    refine ⟨?_, ?_, hnd⟩
    · rw [ha]; exact hwf
    · intro h hm
      rw [ha]
      exact hb h hm
  | registerComp T =>
    simp only [World.applyOp, List.append_nil]
    have ha := World.register_component_allocator w T
    refine ⟨?_, ?_, hnd⟩
    · rw [ha]; exact hwf
    · intro h hm
      rw [ha]
      exact hb h hm

theorem runTrace_inv (ops : List Op) (w : World) (acc : List Entity)
    (hwf : w.allocator.WF) (hb : ∀ h ∈ acc, w.allocator.HandleBound h)
    (hnd : acc.Nodup) :
    (w.runTrace ops).1.allocator.WF ∧
    (∀ h ∈ acc ++ (w.runTrace ops).2, (w.runTrace ops).1.allocator.HandleBound h) ∧
    (acc ++ (w.runTrace ops).2).Nodup := by
  induction ops generalizing w acc with
  | nil => simpa [World.runTrace] using ⟨hwf, fun h hm => hb h hm, hnd⟩
  | cons op rest ih =>
    rcases hstep : w.applyOp op with ⟨w2, es⟩
    have h1 := applyOp_inv op w acc hwf hb hnd
    rw [hstep] at h1
    have h2 := ih w2 (acc ++ es) h1.1 h1.2.1 h1.2.2
    have hrun : w.runTrace (op :: rest)
        = ((w2.runTrace rest).1, es ++ (w2.runTrace rest).2) := by
      simp [World.runTrace, hstep]
    rw [hrun]
    simpa [List.append_assoc] using h2

/-- C1: over every sequence of entity-lifecycle operations started from a fresh World,
the handles returned by entity creation are pairwise distinct `(index, generation)` pairs
(so no two simultaneously-allocated entities ever share a pair); moreover `allocate`
never returns a handle that is already live, and at any instant two live handles on the
same index are the same handle. -/
theorem allocation_freshness :
    (∀ ops : List Op, (World.new.runTrace ops).2.Nodup) ∧
    (∀ a : HandleAllocator, a.is_allocated (a.allocate).2 = false) ∧
    (∀ (a : HandleAllocator) (h1 h2 : Handle), a.is_allocated h1 = true →
      a.is_allocated h2 = true → h1.index = h2.index → h1 = h2) := by
  refine ⟨?_, HandleAllocator.allocate_not_live, HandleAllocator.live_same_index_eq⟩
  intro ops
  have h := runTrace_inv ops World.new [] (fun i hi => absurd hi (List.not_mem_nil i))
    (fun h hm => absurd hm (List.not_mem_nil h)) List.nodup_nil
  simpa using h.2.2

theorem allocation_freshness_witness :
    (World.new.runTrace
      [Op.createMany 2, Op.removeOne ⟨0, 0⟩, Op.create, Op.create]).2.Nodup ∧
    HandleAllocator.new.is_allocated (HandleAllocator.new.allocate).2 = false ∧
    (⟨0, 1⟩ : Handle) = ⟨0, 1⟩ :=
  ⟨allocation_freshness.1 [Op.createMany 2, Op.removeOne ⟨0, 0⟩, Op.create, Op.create],
   allocation_freshness.2.1 HandleAllocator.new,
   allocation_freshness.2.2 ⟨[⟨1, true⟩], []⟩ ⟨0, 1⟩ ⟨0, 1⟩ (by decide) (by decide) rfl⟩

theorem HandleAllocator.allocate_free_cons (a : HandleAllocator) (i : Nat)
    (rest : List Nat) (hf : a.free_list = i :: rest) (s : SlotState)
    (hs : a.slots[i]? = some s) :
    a.allocate = (⟨a.slots.set i ⟨s.generation + 1, true⟩, rest⟩, ⟨i, s.generation + 1⟩) := by
  unfold HandleAllocator.allocate
  rw [hf]
  dsimp only
  rw [hs]

theorem HandleAllocator.allocate_free_nil (a : HandleAllocator) (hf : a.free_list = []) :
    a.allocate = (⟨a.slots ++ [⟨0, true⟩], []⟩, ⟨a.slots.length, 0⟩) := by
  unfold HandleAllocator.allocate
  rw [hf]

theorem HandleAllocator.deallocate_live (a : HandleAllocator) (h : Handle) (s : SlotState)
    (hs : a.slots[h.index]? = some s) (hal : s.allocated = true)
    (hg : s.generation = h.generation) :
    a.deallocate h
      = ⟨a.slots.set h.index ⟨s.generation, false⟩, h.index :: a.free_list⟩ := by
  unfold HandleAllocator.deallocate
  rw [hs]
  simp [hal, hg]

theorem HandleAllocator.alloc_dealloc_alloc (a : HandleAllocator) (hwf : a.WF) :
    ((((a.allocate).1.deallocate (a.allocate).2).allocate).2.index
        = (a.allocate).2.index) ∧
    ((((a.allocate).1.deallocate (a.allocate).2).allocate).2.generation
        = (a.allocate).2.generation + 1) ∧
    ((((a.allocate).1.deallocate (a.allocate).2).allocate).1.is_allocated (a.allocate).2
        = false) := by
  match hf : a.free_list with
  | i :: rest =>
    have hi : i < a.slots.length := hwf i (hf ▸ List.mem_cons_self i rest)
    obtain ⟨s, hs⟩ : ∃ s, a.slots[i]? = some s := ⟨a.slots[i], List.getElem?_eq_getElem hi⟩
    have e1 := HandleAllocator.allocate_free_cons a i rest hf s hs
    rw [e1]
    dsimp only
    have h1 : (a.slots.set i ⟨s.generation + 1, true⟩)[i]?
        = some ⟨s.generation + 1, true⟩ := List.getElem?_set_self hi
    have e2 := HandleAllocator.deallocate_live
      ⟨a.slots.set i ⟨s.generation + 1, true⟩, rest⟩ ⟨i, s.generation + 1⟩
      ⟨s.generation + 1, true⟩ h1 rfl rfl
    rw [e2]
    dsimp only
    have h2 : ((a.slots.set i ⟨s.generation + 1, true⟩).set i
        ⟨s.generation + 1, false⟩)[i]? = some ⟨s.generation + 1, false⟩ :=
      List.getElem?_set_self (by simpa using hi)
    have e3 := HandleAllocator.allocate_free_cons
      (⟨(a.slots.set i ⟨s.generation + 1, true⟩).set i ⟨s.generation + 1, false⟩,
        i :: rest⟩ : HandleAllocator) i rest rfl ⟨s.generation + 1, false⟩ h2
    rw [e3]
    refine ⟨rfl, rfl, ?_⟩
    have h3 : (a.slots.set i ⟨s.generation + 1 + 1, true⟩)[i]?
        = some ⟨s.generation + 1 + 1, true⟩ := List.getElem?_set_self hi
    simp [HandleAllocator.is_allocated, h3]
  | [] =>
    have e1 := HandleAllocator.allocate_free_nil a hf
    rw [e1]
    dsimp only
    have h1 : (a.slots ++ [(⟨0, true⟩ : SlotState)])[a.slots.length]? = some ⟨0, true⟩ :=
      List.getElem?_concat_length a.slots ⟨0, true⟩
    have e2 := HandleAllocator.deallocate_live
      ⟨a.slots ++ [⟨0, true⟩], []⟩ ⟨a.slots.length, 0⟩ ⟨0, true⟩ h1 rfl rfl
    rw [e2]
    dsimp only
    have hl : a.slots.length < (a.slots ++ [(⟨0, true⟩ : SlotState)]).length := by simp
    have h2 : ((a.slots ++ [(⟨0, true⟩ : SlotState)]).set a.slots.length
        ⟨0, false⟩)[a.slots.length]? = some ⟨0, false⟩ := List.getElem?_set_self hl
    have e3 := HandleAllocator.allocate_free_cons
      (HandleAllocator.mk ((a.slots ++ [SlotState.mk 0 true]).set a.slots.length
        (SlotState.mk 0 false)) [a.slots.length])
      a.slots.length [] rfl ⟨0, false⟩ h2
    rw [e3]
    refine ⟨rfl, rfl, ?_⟩
    have h3 : ((a.slots ++ [(⟨0, true⟩ : SlotState)]).set a.slots.length
        ⟨0 + 1, true⟩)[a.slots.length]? = some ⟨0 + 1, true⟩ :=
      List.getElem?_set_self hl
    simp [HandleAllocator.is_allocated, h3]

/-- C2: after creating an entity, removing it, and creating again, the new handle reuses
the old index with a strictly larger generation (so it differs from the old handle), and
every component operation invoked with the old handle fails or reports absence — it never
reaches the new entity's data. The well-formedness hypothesis holds for every reachable
World (first conjunct). -/
theorem stale_handle_never_aliases :
    (∀ ops : List Op, (World.new.runOps ops).allocator.WF) ∧
    (∀ (w : World) (T v : Nat), w.allocator.WF →
      (((w.create_entity).1.remove_entity (w.create_entity).2).create_entity).2.index
          = (w.create_entity).2.index ∧
      (((w.create_entity).1.remove_entity (w.create_entity).2).create_entity).2.generation
          = (w.create_entity).2.generation + 1 ∧
      (((w.create_entity).1.remove_entity (w.create_entity).2).create_entity).2
          ≠ (w.create_entity).2 ∧
      (((((w.create_entity).1.remove_entity (w.create_entity).2).create_entity).1.add_component
          T (w.create_entity).2 v).2 = Except.error ⟨(w.create_entity).2⟩) ∧
      (((((w.create_entity).1.remove_entity (w.create_entity).2).create_entity).1.add_component
          T (w.create_entity).2 v).1
        = ((((w.create_entity).1.remove_entity (w.create_entity).2).create_entity)).1) ∧
      (((((w.create_entity).1.remove_entity (w.create_entity).2).create_entity).1.remove_component
          T (w.create_entity).2).2 = Except.error ⟨(w.create_entity).2⟩) ∧
      ((((w.create_entity).1.remove_entity (w.create_entity).2).create_entity).1.get_component
          T (w.create_entity).2 = none) ∧
      ((((w.create_entity).1.remove_entity (w.create_entity).2).create_entity).1.get_component_mut
          T (w.create_entity).2 = none) ∧
      ((((w.create_entity).1.remove_entity (w.create_entity).2).create_entity).1.has_component
          T (w.create_entity).2 = false)) := by
  constructor
  · intro ops
    exact (runTrace_inv ops World.new [] (fun i hi => absurd hi (List.not_mem_nil i))
      (fun h hm => absurd hm (List.not_mem_nil h)) List.nodup_nil).1
  · intro w T v hwf
    have hkey := HandleAllocator.alloc_dealloc_alloc w.allocator hwf
    simp only [World.create_entity_def, World.remove_entity_def]
    have hdead : ((((w.allocator.allocate).1.deallocate
        (w.allocator.allocate).2).allocate).1).is_allocated (w.allocator.allocate).2
        = false := hkey.2.2
    have hne : (((w.allocator.allocate).1.deallocate
        (w.allocator.allocate).2).allocate).2 ≠ (w.allocator.allocate).2 := by
      intro hq
      have := congrArg Handle.generation hq
      rw [hkey.2.1] at this
      omega
    have hdead2 : (World.mk w.resources w.components (((w.allocator.allocate).1.deallocate (w.allocator.allocate).2).allocate).1).entity_exists (w.allocator.allocate).2 = false := by
      simp [World.entity_exists, hdead]
    refine ⟨hkey.1, hkey.2.1, hne, ?_, ?_, ?_, ?_, ?_, ?_⟩
    · simp [World.add_component, World.assign_component, HandleAllocator.handle_exists, hdead]
    · simp [World.add_component, World.assign_component, HandleAllocator.handle_exists, hdead]
    · simp [World.remove_component, World.assign_component, HandleAllocator.handle_exists,
        hdead]
    · exact World.get_component_of_dead _ T _ hdead2
    · exact World.get_component_mut_of_dead _ T _ hdead2
    · simp [World.has_component, World.get_component_of_dead _ T _ hdead2]

theorem stale_handle_never_aliases_witness :
    (World.new.runOps [Op.create]).allocator.WF ∧
    ((((World.new.create_entity).1.remove_entity
        (World.new.create_entity).2).create_entity).1.get_component 0
        (World.new.create_entity).2 = none) :=
  ⟨stale_handle_never_aliases.1 [Op.create],
   (stale_handle_never_aliases.2 World.new 0 5
     (fun i hi => absurd hi (List.not_mem_nil i))).2.2.2.2.2.2.2.1⟩

theorem remove_component_creates_column_witness :
    ((World.new.create_entity).1.remove_component 0 ⟨0, 0⟩).2 = Except.ok () ∧
    (World.new.create_entity).1.get_component_vec 0 = none ∧
    ((World.new.create_entity).1.remove_component 0 ⟨0, 0⟩).1.get_component_vec 0 =
      some ComponentVec.empty :=
  remove_component_creates_column (World.new.create_entity).1 0 ⟨0, 0⟩ (by decide)
    (by decide)
